import Mathlib

/-!
Shallow embedding of the synthetic-data pipeline in
`scripts/main_data_pipeline.py` (with the parallel draft
`scripts/queries_cleaning.py` and the generator
`scripts/generate_fake_data.py`), together with proofs about the
cleaning, enrichment and metrics stages.

Modelling conventions:
* timestamps are integers (minutes); a raw timestamp cell is a `TField`:
  a parseable value, a null (`None`/`NaN`), or a malformed string
  (`pd.to_datetime` raises on it, or yields `NaT` under
  `errors := coerce`);
* numeric columns that can hold `NaN` are `Option Rat`
  (`none` = missing/non-numeric, mirroring `pd.to_numeric(..., coerce)`);
* a DataFrame is a `List` of row structures; column drops and the final
  column selections are the projections between the row structures;
* exceptions are `Except Unit`.
-/

namespace ProductPipeline

/-- One raw timestamp cell, as stored in the CSV before parsing. -/
inductive TField where
  | valid (t : Int)
  | nullv
  | malformed
deriving DecidableEq, Repr

/-- The `is_active` column: integers `0/1` in the raw data, the strings
`no`/`yes` after cleaning (pandas keeps the column heterogeneous). -/
inductive ActiveV where
  | num (n : Int)
  | strv (s : String)
deriving DecidableEq, Repr

/-- Model of `pd.to_datetime` on one cell: a malformed string raises. -/
def to_datetime : TField → Except Unit (Option Int)
  | .valid t => .ok (some t)
  | .nullv => .ok none
  | .malformed => .error ()

/-- Model of `pd.to_datetime(..., errors := coerce)` on one cell:
a malformed string becomes `NaT` instead of raising. -/
def parseCoerce : TField → Option Int
  | .valid t => some t
  | _ => none

/-- The `valid_statuses` constant of `main_data_pipeline.py`. -/
def valid_statuses : List String := ["pending", "completed", "failed"]

/-- Python `str.strip` character class (ASCII whitespace). -/
def isWSChar (c : Char) : Bool :=
  c = ' ' || c = '\t' || c = '\n' || c = '\r' || c = '\x0b' || c = '\x0c'

/-- Strip leading and trailing whitespace from a character list. -/
def stripList (l : List Char) : List Char :=
  ((l.dropWhile isWSChar).reverse.dropWhile isWSChar).reverse

/-- Model of pandas `.str.strip()` on one cell. -/
def stripStr (s : String) : String :=
  ⟨stripList s.data⟩

/-- Model of pandas `.str.lower()` on one cell. -/
def lowerStr (s : String) : String :=
  ⟨s.data.map Char.toLower⟩

/-- Replace every occurrence of `pat` in the list with `repl`,
fuelled by the list length (each step consumes at least one element). -/
def replaceFuel (pat repl : List Char) : Nat → List Char → List Char
  | 0, l => l
  | _ + 1, [] => []
  | fuel + 1, x :: xs =>
    if pat.isPrefixOf (x :: xs) && ! pat.isEmpty then
      repl ++ replaceFuel pat repl fuel (List.drop (pat.length - 1) xs)
    else
      x :: replaceFuel pat repl fuel xs

/-- Model of pandas `.str.replace(pat, repl)` (plain substring mode) on
one cell. -/
def replaceSub (s pat repl : String) : String :=
  ⟨replaceFuel pat.data repl.data s.data.length s.data⟩

/-- One raw generated record (the columns written by `generate_data`). -/
structure RawRow where
  user_id : String
  first_name : String
  last_name : String
  email : String
  date_of_birth : String
  phone_number : String
  address : String
  city : String
  state : String
  postal_code : String
  country : String
  company : String
  job_title : String
  ip_address : String
  is_active : ActiveV
  login_time : TField
  logout_time : TField
  account_created : TField
  account_updated : TField
  account_deleted : TField
  session_duration_minutes : Option Rat
  product_id : String
  product_name : String
  price : Option Rat
  purchase_status : String
  user_agent : String
deriving DecidableEq, Repr

/-- A raw row after the `transact_id` column has been added. -/
structure TRow extends RawRow where
  transact_id : Option String
deriving DecidableEq, Repr

/-- The fixed 23-column contract selected at the end of
`process_basic_cleaning`. -/
structure BasicRow where
  user_id : String
  transact_id : Option String
  first_name : String
  last_name : String
  email : String
  date_of_birth : String
  address : String
  state : String
  country : String
  company : String
  job_title : String
  ip_address : String
  is_active : ActiveV
  login_time : TField
  logout_time : TField
  account_created : TField
  account_updated : TField
  account_deleted : TField
  session_duration_minutes : Option Rat
  product_name : String
  price : Option Rat
  purchase_status : String
  user_agent : String
deriving DecidableEq, Repr

/-- The cleaned contract: the basic columns plus the three columns that
`process_advanced_cleaning` derives from `user_agent`. -/
structure CleanRow extends BasicRow where
  device_type : String
  os : String
  browser : String
deriving DecidableEq, Repr

/-- The `validate_timestamps` body before the `except` clause:
parse both cells, then `pd.notnull(login) and pd.notnull(logout) and
login <= logout` (a comparison against `NaT` is `False`). -/
def validateTimestampsE (login logout : TField) : Except Unit Bool :=
  match to_datetime login with
  | .error e => .error e
  | .ok l =>
    match to_datetime logout with
    | .error e => .error e
    | .ok lo =>
      .ok (match l, lo with
        | some a, some b => decide (a ≤ b)
        | _, _ => false)

/-- `validate_timestamps` of `main_data_pipeline.py`: any exception is
caught and turned into `False`. -/
def validate_timestamps (login logout : TField) : Bool :=
  match validateTimestampsE login logout with
  | .ok b => b
  | .error _ => false

/-- Model of `strftime(%Y%m%d%H%M%S)` on a parsed timestamp: an
injective textual rendering. -/
def fmtTs (t : Int) : String := toString t

/-- The `transact_id` lambda of `process_basic_cleaning`: `None` when
the raw cell is null, otherwise `txn_{user_id}_{strftime(login)}`;
`pd.to_datetime` raises on a malformed non-null cell. -/
def mkTransactId (uid : String) (login : TField) : Except Unit (Option String) :=
  match login with
  | .nullv => .ok none
  | .valid t => .ok (some ("txn_" ++ uid ++ "_" ++ fmtTs t))
  | .malformed => .error ()

/-- Model of `df.apply(..., axis := 1)` building one column: the first
raising row aborts the whole frame operation. -/
def mapExcept (f : α → Except Unit β) : List α → Except Unit (List β)
  | [] => .ok []
  | x :: xs =>
    match f x with
    | .error e => .error e
    | .ok y =>
      match mapExcept f xs with
      | .error e => .error e
      | .ok ys => .ok (y :: ys)

/-- Add the `transact_id` column to one raw row. -/
def mkTRow (r : RawRow) : Except Unit TRow :=
  (mkTransactId r.user_id r.login_time).map (fun tid => { toRawRow := r, transact_id := tid })

/-- Apply `.str.strip()` to every object (string-typed) column of the
frame at the point just after `transact_id` is added: all the raw string
columns plus `transact_id` (`is_active` is still integral there, and the
timestamp cells are modelled as already-canonical). -/
def stripT (t : TRow) : TRow :=
  { toRawRow :=
      { t.toRawRow with
        user_id := stripStr t.user_id
        first_name := stripStr t.first_name
        last_name := stripStr t.last_name
        email := stripStr t.email
        date_of_birth := stripStr t.date_of_birth
        phone_number := stripStr t.phone_number
        address := stripStr t.address
        city := stripStr t.city
        state := stripStr t.state
        postal_code := stripStr t.postal_code
        country := stripStr t.country
        company := stripStr t.company
        job_title := stripStr t.job_title
        ip_address := stripStr t.ip_address
        product_id := stripStr t.product_id
        product_name := stripStr t.product_name
        purchase_status := stripStr t.purchase_status
        user_agent := stripStr t.user_agent }
    transact_id := t.transact_id.map stripStr }

/-- `df.drop_duplicates(subset := [email])` keeps the first occurrence
of every key; `dedupByAux` threads the set of keys already seen. -/
def dedupByAux (key : α → String) (seen : List String) : List α → List α
  | [] => []
  | x :: xs =>
      if key x ∈ seen then dedupByAux key seen xs
      else x :: dedupByAux key (key x :: seen) xs

/-- Keep-first deduplication by a string key. -/
def dedupBy (key : α → String) (xs : List α) : List α :=
  dedupByAux key [] xs

/-- The `is_active.replace({0: no, 1: yes})` mapping. -/
def replaceActive (a : ActiveV) : ActiveV :=
  match a with
  | .num n => if n = 0 then .strv "no" else if n = 1 then .strv "yes" else .num n
  | .strv s => .strv s

/-- The tail of `process_basic_cleaning`: drop the irrelevant columns
(`phone_number`, `city`, `postal_code`, `country`, `product_id`),
re-add the constant `country`, normalize `is_active`, and select the
fixed 23-column contract. -/
def selectBasic (t : TRow) : BasicRow :=
  { user_id := t.user_id
    transact_id := t.transact_id
    first_name := t.first_name
    last_name := t.last_name
    email := t.email
    date_of_birth := t.date_of_birth
    address := t.address
    state := t.state
    country := "United States"
    company := t.company
    job_title := t.job_title
    ip_address := t.ip_address
    is_active := replaceActive t.is_active
    login_time := t.login_time
    logout_time := t.logout_time
    account_created := t.account_created
    account_updated := t.account_updated
    account_deleted := t.account_deleted
    session_duration_minutes := t.session_duration_minutes
    product_name := t.product_name
    price := t.price
    purchase_status := t.purchase_status
    user_agent := t.user_agent }

/-- `process_basic_cleaning` of `main_data_pipeline.py`: add
`transact_id`, strip the object columns, de-duplicate by `email`
(keep first), drop/re-add/normalize columns, select the contract. -/
def process_basic_cleaning (xs : List RawRow) : Except Unit (List BasicRow) :=
  match mapExcept mkTRow xs with
  | .error e => .error e
  | .ok ts => .ok ((dedupBy (fun t => t.email) (ts.map stripT)).map selectBasic)

/-- The user-agent classification is performed by the external
`user_agents` library; the pipeline is parameterized by the classifier
`C`, returning `(device_family, os_family, browser_family)`. -/
def addUA (C : String → String × String × String) (b : BasicRow) : CleanRow :=
  { toBasicRow := b
    device_type := replaceSub (C b.user_agent).1 "Other" "Desktop"
    os := (C b.user_agent).2.1
    browser := (C b.user_agent).2.2 }

/-- Model of `pd.to_numeric(..., errors := coerce)` on the price column,
whose cells are already numeric-or-null here. -/
def to_numeric (p : Option Rat) : Option Rat := p

/-- The `df[df[price] > 0]` predicate; a comparison against `NaN` is
`False`. -/
def priceOK (r : CleanRow) : Bool :=
  match r.price with
  | some p => decide (0 < p)
  | none => false

/-- `process_advanced_cleaning` of `main_data_pipeline.py`: derive the
device columns, filter by `validate_timestamps`, coerce and filter
`price`, lower-case and filter `purchase_status`. -/
def process_advanced_cleaning (C : String → String × String × String)
    (bs : List BasicRow) : List CleanRow :=
  (((((bs.map (addUA C)).filter
      (fun r => validate_timestamps r.login_time r.logout_time)).map
      (fun r => { r with price := to_numeric r.price })).filter
      priceOK).map
      (fun r => { r with purchase_status := lowerStr r.purchase_status })).filter
      (fun r => valid_statuses.contains r.purchase_status)

/-- The cleaning pipeline of `prepare_data`: basic then advanced. -/
def cleanRows (C : String → String × String × String)
    (xs : List RawRow) : Except Unit (List CleanRow) :=
  (process_basic_cleaning xs).map (process_advanced_cleaning C)

/-! Re-running the cleaning stage on its own output (for the idempotence
property): the same operations of `process_basic_cleaning`, applied to a
frame that carries the cleaned contract's columns. -/

/-- Second-pass `transact_id` column: overwrites the existing one. -/
def mkTid2 (r : CleanRow) : Except Unit CleanRow :=
  (mkTransactId r.user_id r.login_time).map
    (fun tid => { r with transact_id := tid })

/-- Apply `.str.strip()` to every object column of a cleaned frame; at
this point `is_active` and the device columns are strings too. -/
def stripActive (a : ActiveV) : ActiveV :=
  match a with
  | .num n => .num n
  | .strv s => .strv (stripStr s)

/-- Strip all object columns of one cleaned row. -/
def strip2 (r : CleanRow) : CleanRow :=
  { user_id := stripStr r.user_id
    transact_id := r.transact_id.map stripStr
    first_name := stripStr r.first_name
    last_name := stripStr r.last_name
    email := stripStr r.email
    date_of_birth := stripStr r.date_of_birth
    address := stripStr r.address
    state := stripStr r.state
    country := stripStr r.country
    company := stripStr r.company
    job_title := stripStr r.job_title
    ip_address := stripStr r.ip_address
    is_active := stripActive r.is_active
    login_time := r.login_time
    logout_time := r.logout_time
    account_created := r.account_created
    account_updated := r.account_updated
    account_deleted := r.account_deleted
    session_duration_minutes := r.session_duration_minutes
    product_name := stripStr r.product_name
    price := r.price
    purchase_status := stripStr r.purchase_status
    user_agent := stripStr r.user_agent
    device_type := stripStr r.device_type
    os := stripStr r.os
    browser := stripStr r.browser }

/-- Second-pass column handling: now only `country` is among the columns
to drop; it is re-added as the constant, `is_active` is re-normalized
(a no-op on `yes`/`no`), and the 23-column selection drops the device
columns (the advanced pass re-derives them). -/
def selectBasic2 (r : CleanRow) : BasicRow :=
  { r.toBasicRow with
    country := "United States"
    is_active := replaceActive r.is_active }

/-- `process_basic_cleaning` applied a second time, to its own cleaned
output. -/
def process_basic_cleaning_again (ys : List CleanRow) : Except Unit (List BasicRow) :=
  match mapExcept mkTid2 ys with
  | .error e => .error e
  | .ok ts => .ok ((dedupBy (fun r => r.email) (ts.map strip2)).map selectBasic2)

/-- The full cleaning transform applied a second time. -/
def cleanRowsAgain (C : String → String × String × String)
    (ys : List CleanRow) : Except Unit (List CleanRow) :=
  (process_basic_cleaning_again ys).map (process_advanced_cleaning C)

/-! The cleaning-metrics record of `save_metrics`, which `prepare_data`
computes on the frame `df` it receives after cleaning. -/

/-- The `cleaning_metrics` dict written by `save_metrics`. -/
structure CleaningMetrics where
  initial_records : Nat
  duplicate_emails_removed : Nat
  invalid_sessions_removed : Nat
  invalid_prices_removed : Nat
  invalid_status_removed : Nat
deriving DecidableEq, Repr

/-- `save_metrics` of `main_data_pipeline.py` (its pure content: the
metrics computed from the frame it is given). -/
def save_metrics (ys : List CleanRow) : CleaningMetrics :=
  { initial_records := ys.length
    duplicate_emails_removed := ys.length - (dedupBy (fun r => r.email) ys).length
    invalid_sessions_removed :=
      (ys.filter (fun r => ! validate_timestamps r.login_time r.logout_time)).length
    invalid_prices_removed :=
      (ys.filter (fun r =>
        match r.price with
        | some p => decide (p ≤ 0)
        | none => false)).length
    invalid_status_removed :=
      (ys.filter (fun r => ! valid_statuses.contains r.purchase_status)).length }

/-- The metrics actually persisted by `prepare_data`: `save_metrics` is
called on the frame after `process_basic_cleaning` and
`process_advanced_cleaning` have run. -/
def prepare_metrics (C : String → String × String × String)
    (xs : List RawRow) : Except Unit CleaningMetrics :=
  (cleanRows C xs).map save_metrics

/-! The feature-enrichment stage `add_analysis_fields`. -/

/-- The enriched row: the cleaned columns (with the five date columns
overwritten by their `errors := coerce` parses) plus the derived
analysis fields. -/
structure EnrichRow where
  user_id : String
  transact_id : Option String
  first_name : String
  last_name : String
  email : String
  date_of_birth : String
  address : String
  state : String
  country : String
  company : String
  job_title : String
  ip_address : String
  is_active : ActiveV
  login_time : Option Int
  logout_time : Option Int
  account_created : Option Int
  account_updated : Option Int
  account_deleted : Option Int
  session_duration_minutes : Option Rat
  product_name : String
  price : Option Rat
  purchase_status : String
  user_agent : String
  device_type : String
  os : String
  browser : String
  cohort_date : Option String
  user_age_days : Int
  engagement_level : Option String
  price_tier : Option String
  customer_lifetime_value : Rat
deriving DecidableEq, Repr

/-- Minutes per day, for the `.dt.days` conversion. -/
def minutesPerDay : Int := 1440

/-- Model of `strftime(%Y-%m)`: truncation of the timestamp to its
month rendered as a sortable string (months modelled as fixed-length). -/
def fmtMonth (t : Int) : String :=
  toString (Int.fdiv t (30 * minutesPerDay))

/-- `pd.cut(fillna(0), bins := [0, 30, 60, 120, inf], labels := ...)`:
pandas bins are left-open and right-closed, so `0` falls outside every
bin and yields a null label. -/
def cutEngagement (d : Rat) : Option String :=
  if d ≤ 0 then none
  else if d ≤ 30 then some "Very Low"
  else if d ≤ 60 then some "Low"
  else if d ≤ 120 then some "Medium"
  else some "High"

/-- The index below the interpolation position `q * (len - 1)`. -/
def qIndex (len : Nat) (q : Rat) : Nat :=
  (Int.floor (q * ((len : Rat) - 1))).toNat

/-- Linear-interpolation quantile of a sorted list (numpy's default,
which pandas `qcut` uses): interpolate between the values around the
position `q * (len - 1)`. -/
def quantile (ys : List Rat) (q : Rat) : Rat :=
  if ys.length = 0 then 0
  else
    ys.getD (qIndex ys.length q) 0
      + (q * ((ys.length : Rat) - 1) - ((qIndex ys.length q : Nat) : Rat))
        * (ys.getD (qIndex ys.length q + 1) (ys.getD (qIndex ys.length q) 0)
            - ys.getD (qIndex ys.length q) 0)

/-- The bin edges `pd.qcut(price, q := 4)` computes: the quantiles at
`0, 1/4, 1/2, 3/4, 1` of the sorted non-null prices. -/
def qcutRawEdges (prices : List Rat) : List Rat :=
  [quantile (prices.insertionSort (· ≤ ·)) 0,
   quantile (prices.insertionSort (· ≤ ·)) (1/4),
   quantile (prices.insertionSort (· ≤ ·)) (1/2),
   quantile (prices.insertionSort (· ≤ ·)) (3/4),
   quantile (prices.insertionSort (· ≤ ·)) 1]

/-- `pd.qcut(price, q := 4)` raises `ValueError` when the computed bin
edges are not unique. -/
def qcutEdges (prices : List Rat) : Except Unit (List Rat) :=
  if (qcutRawEdges prices).Chain' (· < ·) then .ok (qcutRawEdges prices)
  else .error ()

/-- Assign the quartile label for one price given the computed edges
(the first bin includes its lower edge). -/
def tierOf (edges : List Rat) (p : Rat) : String :=
  if p ≤ edges.getD 1 0 then "Budget"
  else if p ≤ edges.getD 2 0 then "Standard"
  else if p ≤ edges.getD 3 0 then "Premium"
  else "Luxury"

/-- The per-`user_id` price sum of the CLV computation: the
`groupby(user_id)[price].sum()` aggregate (`NaN` prices are skipped),
looked up by the left merge back onto each row. -/
def userPriceSum (xs : List CleanRow) (u : String) : Rat :=
  ((xs.filter (fun r => r.user_id == u)).map (fun r => r.price.getD 0)).sum

/-- `add_analysis_fields` of `main_data_pipeline.py`: coerce the date
columns, derive `cohort_date`, `user_age_days` (missing dates give 0),
`engagement_level` (missing durations filled with 0), `price_tier`
(quartiles, with the `except ValueError` fallback assigning the scalar
`Standard` to the whole column), and `customer_lifetime_value`. -/
def add_analysis_fields (xs : List CleanRow) : List EnrichRow :=
  let tierRes := qcutEdges (xs.filterMap (fun r => r.price))
  xs.map (fun r =>
    { user_id := r.user_id
      transact_id := r.transact_id
      first_name := r.first_name
      last_name := r.last_name
      email := r.email
      date_of_birth := r.date_of_birth
      address := r.address
      state := r.state
      country := r.country
      company := r.company
      job_title := r.job_title
      ip_address := r.ip_address
      is_active := r.is_active
      login_time := parseCoerce r.login_time
      logout_time := parseCoerce r.logout_time
      account_created := parseCoerce r.account_created
      account_updated := parseCoerce r.account_updated
      account_deleted := parseCoerce r.account_deleted
      session_duration_minutes := r.session_duration_minutes
      product_name := r.product_name
      price := r.price
      purchase_status := r.purchase_status
      user_agent := r.user_agent
      device_type := r.device_type
      os := r.os
      browser := r.browser
      cohort_date := (parseCoerce r.account_created).map fmtMonth
      user_age_days :=
        (match parseCoerce r.login_time, parseCoerce r.account_created with
          | some l, some a => Int.fdiv (l - a) minutesPerDay
          | _, _ => 0)
      engagement_level := cutEngagement (r.session_duration_minutes.getD 0)
      price_tier :=
        (match tierRes with
          | .ok edges => r.price.map (tierOf edges)
          | .error _ => some "Standard")
      customer_lifetime_value := userPriceSum xs r.user_id })

/-! The price draw of the record synthesizer (`generate_data`): the
only transform applied to the bounded draw is rounding to two decimal
digits; there is no outlier multiplier in the source. -/

/-- Python banker's rounding to the nearest integer. -/
def roundHalfEven (q : Rat) : Int :=
  if q - (Int.floor q : Rat) < 1/2 then Int.floor q
  else if 1/2 < q - (Int.floor q : Rat) then Int.floor q + 1
  else if Int.floor q % 2 = 0 then Int.floor q else Int.floor q + 1

/-- Python `round(x, 2)`. -/
def round2 (q : Rat) : Rat :=
  ((roundHalfEven (q * 100) : Int) : Rat) / 100

/-- The `price` expression of `generate_data`:
`round(fake.pyfloat(min_value := 100, max_value := 5000, right_digits := 2), 2)`
applied to the underlying bounded draw `x`. -/
def genPrice (x : Rat) : Rat := round2 x

/-! Concrete rows used as test inputs. -/

/-- A concrete user-agent classifier standing in for the external
`user_agents` library. -/
def uaC0 : String → String × String × String :=
  fun _ => ("Other", "Mac OS X", "Chrome")

/-- A well-formed raw record that survives every cleaning step. -/
def rawBase : RawRow :=
  { user_id := "u1", first_name := "Ann", last_name := "Lee",
    email := "ann_lee@example.com", date_of_birth := "1990-01-01",
    phone_number := "555", address := "1 Main St", city := "Springfield",
    state := "IL", postal_code := "62704", country := "France",
    company := "Acme", job_title := "Engineer", ip_address := "1.2.3.4",
    is_active := .num 1, login_time := .valid 10, logout_time := .valid 20,
    account_created := .valid 8, account_updated := .valid 9,
    account_deleted := .nullv, session_duration_minutes := some 100,
    product_id := "p1", product_name := "Alpha", price := some 250,
    purchase_status := "completed", user_agent := "Mozilla/5.0" }

/-- A raw record whose `logout_time` precedes its `login_time`. -/
def rBadSession : RawRow :=
  { rawBase with login_time := .valid 20, logout_time := .valid 10 }

/-- A fully valid raw record sharing `rBadSession`'s email. -/
def rawDupValid : RawRow :=
  { rawBase with user_id := "u2", login_time := .valid 30, logout_time := .valid 40 }

/-- The cleaned form of `rawBase` (the value `cleanRows uaC0 [rawBase]`
produces). -/
def basicBase : BasicRow :=
  { user_id := "u1", transact_id := some "txn_u1_10", first_name := "Ann",
    last_name := "Lee", email := "ann_lee@example.com",
    date_of_birth := "1990-01-01", address := "1 Main St", state := "IL",
    country := "United States", company := "Acme", job_title := "Engineer",
    ip_address := "1.2.3.4", is_active := .strv "yes",
    login_time := .valid 10, logout_time := .valid 20,
    account_created := .valid 8, account_updated := .valid 9,
    account_deleted := .nullv, session_duration_minutes := some 100,
    product_name := "Alpha", price := some 250,
    purchase_status := "completed", user_agent := "Mozilla/5.0" }

/-- The cleaned row corresponding to `rawBase`. -/
def cleanBase : CleanRow :=
  { toBasicRow := basicBase, device_type := "Desktop", os := "Mac OS X",
    browser := "Chrome" }

/-- A cleaned row with a missing session duration and an unparseable
`account_created` (both survive cleaning, which validates neither). -/
def cleanNoSdm : CleanRow :=
  { cleanBase with session_duration_minutes := none, account_created := .malformed }

/-- A cleaned row whose session lasted exactly 30 minutes. -/
def clean30 : CleanRow :=
  { cleanBase with session_duration_minutes := some 30 }

/-- A cleaned row of user `u1` with price 100. -/
def clean100 : CleanRow := { cleanBase with price := some 100 }

/-- A cleaned row of user `u1` with price 200. -/
def clean200 : CleanRow := { cleanBase with price := some 200 }

/-- A cleaned row of user `u1` with price 300. -/
def clean300 : CleanRow := { cleanBase with price := some 300 }

/-- A cleaned row of a second identity with the same price as
`cleanBase`. -/
def cleanB2 : CleanRow := { cleanBase with user_id := "u2" }

/-- Three raw rows (after the `transact_id` column) sharing one email
but differing in other fields. -/
def tr1 : TRow := { toRawRow := rawBase, transact_id := none }

/-- Second row sharing `tr1`'s email. -/
def tr2 : TRow := { toRawRow := { rawBase with first_name := "Bob" }, transact_id := none }

/-- Third row sharing `tr1`'s email. -/
def tr3 : TRow := { toRawRow := { rawBase with first_name := "Cia" }, transact_id := none }

/-- Proof helper: the row the second `transact_id` pass produces when
the login cell does not raise. -/
def tidUpdate (r : CleanRow) : CleanRow :=
  { r with transact_id :=
      match r.login_time with
      | .valid t => some ("txn_" ++ r.user_id ++ "_" ++ fmtTs t)
      | _ => none }

end ProductPipeline

namespace ProductPipeline

/-! Helper lemmas. -/

/-- Dropping a satisfied-head run twice is the same as dropping once. -/
theorem dropWhile_dropWhile (p : Char → Bool) (l : List Char) :
    (l.dropWhile p).dropWhile p = l.dropWhile p := by
  induction l with
  | nil => rfl
  | cons x t ih =>
    by_cases h : p x
    · rw [List.dropWhile_cons_of_pos h]
      exact ih
    · rw [List.dropWhile_cons_of_neg h, List.dropWhile_cons_of_neg h]

/-- The head surviving `dropWhile` fails the predicate. -/
theorem dropWhile_head_neg (p : Char → Bool) (l : List Char) (x : Char)
    (hx : (l.dropWhile p).head? = some x) : p x = false := by
  induction l with
  | nil => simp [List.dropWhile] at hx
  | cons y t ih =>
    by_cases h : p y
    · rw [List.dropWhile_cons_of_pos h] at hx
      exact ih hx
    · rw [List.dropWhile_cons_of_neg h] at hx
      obtain rfl : y = x := by simpa using hx
      simpa using h

/-- Stripping both ends of a character list is idempotent. -/
theorem stripList_idem (l : List Char) : stripList (stripList l) = stripList l := by
  unfold stripList
  generalize hA : l.dropWhile isWSChar = A
  generalize hB : A.reverse.dropWhile isWSChar = B
  obtain ⟨s, hs⟩ : B <:+ A.reverse := hB ▸ List.dropWhile_suffix isWSChar
  have hAeq : A = B.reverse ++ s.reverse := by
    conv_lhs => rw [← List.reverse_reverse A, ← hs, List.reverse_append]
  have hRdrop : B.reverse.dropWhile isWSChar = B.reverse := by
    cases hR : B.reverse with
    | nil => rfl
    | cons x R2 =>
      have hhd : A.head? = some x := by
        rw [hAeq, hR]
        rfl
      have hpx : isWSChar x = false := by
        refine dropWhile_head_neg isWSChar l x ?_
        rw [hA]
        exact hhd
      exact List.dropWhile_cons_of_neg (by simp [hpx])
  rw [hRdrop, List.reverse_reverse, ← hB, dropWhile_dropWhile, hB]

/-- Model of `.str.strip()` is idempotent. -/
theorem stripStr_idem (s : String) : stripStr (stripStr s) = stripStr s := by
  unfold stripStr
  exact congrArg String.mk (stripList_idem s.data)

/-- A status value in the allow-list is unchanged by stripping and by
lower-casing. -/
theorem status_fixed (s : String) (h : valid_statuses.contains s = true) :
    stripStr s = s ∧ lowerStr s = s := by
  have hmem : s ∈ valid_statuses := by simpa using h
  simp only [valid_statuses, List.mem_cons, List.not_mem_nil, or_false] at hmem
  rcases hmem with rfl | rfl | rfl <;> exact ⟨by decide, by decide⟩

/-- A batch-level column build succeeds with pointwise results when no
row raises. -/
theorem mapExcept_ok (f : α → Except Unit β) (g : α → β) (l : List α)
    (h : ∀ x ∈ l, f x = .ok (g x)) : mapExcept f l = .ok (l.map g) := by
  induction l with
  | nil => rfl
  | cons x t ih =>
    rw [mapExcept, h x (List.mem_cons_self x t),
      ih (fun z hz => h z (List.mem_cons_of_mem x hz))]
    rfl

/-- Keep-first deduplication removes nothing when the keys are already
pairwise distinct and unseen. -/
theorem dedupByAux_eq_self (key : α → String) (seen : List String)
    (xs : List α) (h1 : (xs.map key).Nodup) (h2 : ∀ x ∈ xs, key x ∉ seen) :
    dedupByAux key seen xs = xs := by
  induction xs generalizing seen with
  | nil => rfl
  | cons x t ih =>
    rw [List.map_cons, List.nodup_cons] at h1
    rw [dedupByAux, if_neg (h2 x (List.mem_cons_self x t))]
    congr 1
    refine ih _ h1.2 ?_
    intro z hz
    rw [List.mem_cons]
    rintro (he | hseen)
    · exact h1.1 (he ▸ List.mem_map_of_mem key hz)
    · exact h2 z (List.mem_cons_of_mem x hz) hseen

/-- Keep-first deduplication with pairwise-distinct keys is the
identity. -/
theorem dedupBy_eq_self (key : α → String) (xs : List α)
    (h : (xs.map key).Nodup) : dedupBy key xs = xs :=
  dedupByAux_eq_self key [] xs h (fun x _ => List.not_mem_nil (key x))

/-- Characterize a successful first basic-cleaning pass. -/
theorem process_basic_cleaning_eq (xs : List RawRow) (bs : List BasicRow)
    (h : process_basic_cleaning xs = .ok bs) :
    ∃ ts, mapExcept mkTRow xs = .ok ts
      ∧ bs = (dedupBy (fun t => t.email) (ts.map stripT)).map selectBasic := by
  unfold process_basic_cleaning at h
  cases hm : mapExcept mkTRow xs with
  | error e =>
    rw [hm] at h
    simp at h
  | ok ts =>
    rw [hm] at h
    injection h with h2
    exact ⟨ts, rfl, h2.symm⟩

/-- A record passing the timestamp validator has two parseable
timestamp cells. -/
theorem validate_login_logout (lg lo : TField)
    (h : validate_timestamps lg lo = true) :
    (∃ a, lg = TField.valid a) ∧ ∃ b, lo = TField.valid b := by
  cases lg <;> cases lo <;>
    simp_all [validate_timestamps, validateTimestampsE, to_datetime]

/-- Every survivor of the advanced cleaning pass is validated, priced,
status-checked, and shares its email with some input row. -/
theorem advanced_mem (C : String → String × String × String)
    (bs : List BasicRow) (r : CleanRow)
    (hr : r ∈ process_advanced_cleaning C bs) :
    validate_timestamps r.login_time r.logout_time = true
    ∧ priceOK r = true
    ∧ valid_statuses.contains r.purchase_status = true
    ∧ ∃ b ∈ bs, r.email = b.email := by
  unfold process_advanced_cleaning at hr
  rw [List.mem_filter] at hr
  obtain ⟨hr4, hstat⟩ := hr
  rw [List.mem_map] at hr4
  obtain ⟨r3, hr3, rfl⟩ := hr4
  rw [List.mem_filter] at hr3
  obtain ⟨hr2m, hprice⟩ := hr3
  rw [List.mem_map] at hr2m
  obtain ⟨r2, hr2, rfl⟩ := hr2m
  rw [List.mem_filter] at hr2
  obtain ⟨hr1, hval⟩ := hr2
  rw [List.mem_map] at hr1
  obtain ⟨b, hb, rfl⟩ := hr1
  exact ⟨hval, hprice, hstat, b, hb, rfl⟩

/-- The advanced pass only removes rows: its email column is a sublist
of the input's. -/
theorem advanced_emails_sublist (C : String → String × String × String)
    (bs : List BasicRow) :
    ((process_advanced_cleaning C bs).map (fun r => r.email)).Sublist
      (bs.map (fun b => b.email)) := by
  unfold process_advanced_cleaning
  refine List.Sublist.trans ((List.filter_sublist _).map _) ?_
  rw [List.map_map]
  have e1 : ((fun r : CleanRow => r.email)
      ∘ fun r : CleanRow => { r with purchase_status := lowerStr r.purchase_status })
      = fun r : CleanRow => r.email := rfl
  rw [e1]
  refine List.Sublist.trans ((List.filter_sublist _).map _) ?_
  rw [List.map_map]
  have e2 : ((fun r : CleanRow => r.email)
      ∘ fun r : CleanRow => { r with price := to_numeric r.price })
      = fun r : CleanRow => r.email := rfl
  rw [e2]
  refine List.Sublist.trans ((List.filter_sublist _).map _) ?_
  rw [List.map_map]
  exact List.Sublist.refl _

/-- When every input row passes every advanced check, the advanced pass
removes nothing and preserves the email column. -/
theorem advanced_keeps_all (C : String → String × String × String)
    (bs : List BasicRow)
    (hv : ∀ b ∈ bs, validate_timestamps b.login_time b.logout_time = true)
    (hp : ∀ b ∈ bs, (match b.price with
        | some p => decide (0 < p)
        | none => false) = true)
    (hs : ∀ b ∈ bs, valid_statuses.contains (lowerStr b.purchase_status) = true) :
    (process_advanced_cleaning C bs).length = bs.length
    ∧ (process_advanced_cleaning C bs).map (fun r => r.email)
        = bs.map (fun b => b.email) := by
  unfold process_advanced_cleaning
  have h1 : (bs.map (addUA C)).filter
      (fun r => validate_timestamps r.login_time r.logout_time)
      = bs.map (addUA C) := by
    rw [List.filter_eq_self]
    intro a ha
    obtain ⟨b, hb, rfl⟩ := List.mem_map.mp ha
    exact hv b hb
  rw [h1]
  have h2 : (bs.map (addUA C)).map
      (fun r : CleanRow => { r with price := to_numeric r.price })
      = bs.map (addUA C) := by
    have hid : (fun r : CleanRow => { r with price := to_numeric r.price }) = id := rfl
    rw [hid, List.map_id]
  rw [h2]
  have h3 : (bs.map (addUA C)).filter priceOK = bs.map (addUA C) := by
    rw [List.filter_eq_self]
    intro a ha
    obtain ⟨b, hb, rfl⟩ := List.mem_map.mp ha
    exact hp b hb
  rw [h3]
  have h5 : ((bs.map (addUA C)).map
        (fun r : CleanRow => { r with purchase_status := lowerStr r.purchase_status })).filter
        (fun r => valid_statuses.contains r.purchase_status)
      = (bs.map (addUA C)).map
        (fun r : CleanRow => { r with purchase_status := lowerStr r.purchase_status }) := by
    rw [List.filter_eq_self]
    intro a ha
    obtain ⟨r1, hr1, rfl⟩ := List.mem_map.mp ha
    obtain ⟨b, hb, rfl⟩ := List.mem_map.mp hr1
    exact hs b hb
  rw [h5]
  constructor
  · rw [List.length_map, List.length_map]
  · rw [List.map_map, List.map_map]
    rfl

/-- Rounding to nearest (half-to-even) stays within any integer bounds
that contain the input. -/
theorem roundHalfEven_bounds (q : Rat) (lo hi : Int)
    (h1 : (lo : Rat) ≤ q) (h2 : q ≤ (hi : Rat)) :
    lo ≤ roundHalfEven q ∧ roundHalfEven q ≤ hi := by
  have hfl : lo ≤ Int.floor q := Int.le_floor.mpr h1
  have hfq : (Int.floor q : Rat) ≤ q := Int.floor_le q
  have hfh : Int.floor q ≤ hi := by
    have : (Int.floor q : Rat) ≤ (hi : Rat) := le_trans hfq h2
    exact_mod_cast this
  unfold roundHalfEven
  split_ifs with hlt hgt hev
  · exact ⟨hfl, hfh⟩
  · refine ⟨le_trans hfl (by omega), ?_⟩
    have hne : Int.floor q ≠ hi := by
      intro he
      have : q - (Int.floor q : Rat) ≤ 0 := by
        rw [he]; linarith
      linarith
    omega
  · exact ⟨hfl, hfh⟩
  · refine ⟨le_trans hfl (by omega), ?_⟩
    have hhalf : q - (Int.floor q : Rat) = 1/2 := le_antisymm (not_lt.mp hgt) (not_lt.mp hlt)
    have hne : Int.floor q ≠ hi := by
      intro he
      have : q - (Int.floor q : Rat) ≤ 0 := by
        rw [he]; linarith
      linarith
    omega

/-- The generated price stays inside the draw's bounds. -/
theorem genPrice_bounds (x : Rat) (h1 : 100 ≤ x) (h2 : x ≤ 5000) :
    100 ≤ genPrice x ∧ genPrice x ≤ 5000 := by
  have hb := roundHalfEven_bounds (x * 100) 10000 500000
    (by push_cast; linarith) (by push_cast; linarith)
  unfold genPrice round2
  constructor
  · rw [le_div_iff₀ (by norm_num : (0 : Rat) < 100)]
    have : (10000 : Rat) ≤ (roundHalfEven (x * 100) : Rat) := by exact_mod_cast hb.1
    linarith
  · rw [div_le_iff₀ (by norm_num : (0 : Rat) < 100)]
    have : ((roundHalfEven (x * 100) : Int) : Rat) ≤ 500000 := by exact_mod_cast hb.2
    linarith

/-- When every row carries the same non-null price, the non-null price
column is a constant list. -/
theorem filterMap_price_const (xs : List CleanRow) (c : Rat)
    (hall : ∀ r ∈ xs, r.price = some c) :
    xs.filterMap (fun r => r.price) = List.replicate xs.length c := by
  induction xs with
  | nil => rfl
  | cons x t ih =>
    rw [List.filterMap_cons, hall x (List.mem_cons_self x t)]
    rw [List.length_cons, List.replicate_succ]
    exact congrArg (c :: ·) (ih (fun r hr => hall r (List.mem_cons_of_mem x hr)))

/-- Inserting the repeated element into a constant list is a cons. -/
theorem orderedInsert_replicate (c : Rat) (k : Nat) :
    List.orderedInsert (· ≤ ·) c (List.replicate k c) = List.replicate (k + 1) c := by
  cases k with
  | zero => rfl
  | succ j =>
    rw [List.replicate_succ, List.orderedInsert, if_pos (le_refl c)]
    rfl

/-- Sorting a constant list is the identity. -/
theorem insertionSort_replicate (n : Nat) (c : Rat) :
    (List.replicate n c).insertionSort (· ≤ ·) = List.replicate n c := by
  induction n with
  | zero => rfl
  | succ k ih =>
    rw [List.replicate_succ, List.insertionSort, ih, orderedInsert_replicate]
    rfl

/-- Every interpolation quantile of a non-empty constant list is its
constant. -/
theorem quantile_replicate (n : Nat) (c q : Rat) (hn : n ≠ 0)
    (hq0 : 0 ≤ q) (hq1 : q ≤ 1) :
    quantile (List.replicate n c) q = c := by
  unfold quantile
  rw [List.length_replicate, if_neg hn]
  have hn1 : (1 : Rat) ≤ (n : Rat) := by exact_mod_cast Nat.one_le_iff_ne_zero.mpr hn
  have hpos0 : 0 ≤ q * ((n : Rat) - 1) := mul_nonneg hq0 (by linarith)
  have hposle : q * ((n : Rat) - 1) ≤ (n : Rat) - 1 :=
    mul_le_of_le_one_left (by linarith) hq1
  have h0 : 0 ≤ Int.floor (q * ((n : Rat) - 1)) := Int.le_floor.mpr (by simpa using hpos0)
  have hfl : Int.floor (q * ((n : Rat) - 1)) ≤ (n : Int) - 1 := by
    have h2 := Int.floor_le_floor hposle
    rwa [show Int.floor ((n : Rat) - 1) = (n : Int) - 1 by
      rw [show ((n : Rat) - 1 : Rat) = (((n : Int) - 1 : Int) : Rat) by push_cast; ring,
        Int.floor_intCast]] at h2
  have hi : qIndex n q < n := by
    unfold qIndex
    omega
  have hget1 : (List.replicate n c).getD (qIndex n q) 0 = c := by
    rw [List.getD_eq_getElem?_getD, List.getElem?_replicate, if_pos hi]
    rfl
  have hget2 : (List.replicate n c).getD (qIndex n q + 1) c = c := by
    rw [List.getD_eq_getElem?_getD, List.getElem?_replicate]
    split_ifs <;> rfl
  rw [hget1, hget2]
  ring

/-- On a non-empty constant price column the quartile edges collapse, so
`qcut` raises. -/
theorem qcutEdges_replicate (n : Nat) (c : Rat) (hn : n ≠ 0) :
    qcutEdges (List.replicate n c) = .error () := by
  have hraw : qcutRawEdges (List.replicate n c) = [c, c, c, c, c] := by
    unfold qcutRawEdges
    rw [insertionSort_replicate]
    rw [quantile_replicate n c 0 hn le_rfl (by norm_num),
      quantile_replicate n c (1/4) hn (by norm_num) (by norm_num),
      quantile_replicate n c (1/2) hn (by norm_num) (by norm_num),
      quantile_replicate n c (3/4) hn (by norm_num) (by norm_num),
      quantile_replicate n c 1 hn (by norm_num) le_rfl]
  unfold qcutEdges
  rw [hraw, if_neg]
  intro hch
  rcases hch with _ | ⟨hlt, _⟩
  exact lt_irrefl c hlt

/-- The keep-first deduplication is order-preserving. -/
theorem dedupByAux_sublist (key : α → String) (seen : List String)
    (xs : List α) : (dedupByAux key seen xs).Sublist xs := by
  induction xs generalizing seen with
  | nil => exact List.Sublist.refl []
  | cons x t ih =>
    by_cases h : key x ∈ seen
    · rw [dedupByAux, if_pos h]
      exact (ih seen).cons x
    · rw [dedupByAux, if_neg h]
      exact (ih (key x :: seen)).cons₂ x

/-- A retained element's key was not among the already-seen keys. -/
theorem mem_dedupByAux_not_seen (key : α → String) (seen : List String)
    (xs : List α) (y : α) (hy : y ∈ dedupByAux key seen xs) :
    key y ∉ seen := by
  induction xs generalizing seen with
  | nil => simp [dedupByAux] at hy
  | cons x t ih =>
    by_cases h : key x ∈ seen
    · rw [dedupByAux, if_pos h] at hy
      exact ih seen hy
    · rw [dedupByAux, if_neg h] at hy
      rcases List.mem_cons.mp hy with rfl | hy2
      · exact h
      · exact fun hs => ih (key x :: seen) hy2 (List.mem_cons_of_mem _ hs)

/-- The retained keys are pairwise distinct. -/
theorem dedupByAux_keys_nodup (key : α → String) (seen : List String)
    (xs : List α) : ((dedupByAux key seen xs).map key).Nodup := by
  induction xs generalizing seen with
  | nil => simp [dedupByAux]
  | cons x t ih =>
    by_cases h : key x ∈ seen
    · rw [dedupByAux, if_pos h]
      exact ih seen
    · rw [dedupByAux, if_neg h, List.map_cons, List.nodup_cons]
      refine ⟨?_, ih (key x :: seen)⟩
      intro hmem
      obtain ⟨y, hy, hkey⟩ := List.mem_map.mp hmem
      exact mem_dedupByAux_not_seen key _ t y hy
        (by rw [hkey]; exact List.mem_cons_self _ _)

/-- Each retained element is the first occurrence of its key. -/
theorem mem_dedupByAux_find? (key : α → String) (seen : List String)
    (xs : List α) (y : α) (hy : y ∈ dedupByAux key seen xs) :
    key y ∉ seen ∧ xs.find? (fun z => key z == key y) = some y := by
  induction xs generalizing seen with
  | nil => simp [dedupByAux] at hy
  | cons x t ih =>
    by_cases h : key x ∈ seen
    · rw [dedupByAux, if_pos h] at hy
      obtain ⟨hn, hf⟩ := ih seen hy
      refine ⟨hn, ?_⟩
      have hne : ¬ ((key x == key y) = true) := by
        rw [beq_iff_eq]
        intro he
        exact hn (he ▸ h)
      have hrw : List.find? (fun z => key z == key y) (x :: t)
          = List.find? (fun z => key z == key y) t :=
        List.find?_cons_of_neg t hne
      rw [hrw]
      exact hf
    · rw [dedupByAux, if_neg h] at hy
      rcases List.mem_cons.mp hy with rfl | hy2
      · exact ⟨h, List.find?_cons_of_pos t (by simp)⟩
      · obtain ⟨hn, hf⟩ := ih (key x :: seen) hy2
        have hnx : key y ≠ key x := fun he =>
          hn (by rw [he]; exact List.mem_cons_self _ _)
        refine ⟨fun hs => hn (List.mem_cons_of_mem _ hs), ?_⟩
        have hne : ¬ ((key x == key y) = true) := by
          rw [beq_iff_eq]
          intro he
          exact hnx he.symm
        have hrw : List.find? (fun z => key z == key y) (x :: t)
            = List.find? (fun z => key z == key y) t :=
          List.find?_cons_of_neg t hne
        rw [hrw]
        exact hf

/-- Every input key is represented among the retained elements (or was
already seen). -/
theorem dedupByAux_covers (key : α → String) (seen : List String)
    (xs : List α) (z : α) (hz : z ∈ xs) :
    key z ∈ seen ∨ ∃ y ∈ dedupByAux key seen xs, key y = key z := by
  induction xs generalizing seen with
  | nil => simp at hz
  | cons x t ih =>
    by_cases h : key x ∈ seen
    · rw [dedupByAux, if_pos h]
      rcases List.mem_cons.mp hz with rfl | hz2
      · exact Or.inl h
      · exact ih seen hz2
    · rw [dedupByAux, if_neg h]
      rcases List.mem_cons.mp hz with rfl | hz2
      · exact Or.inr ⟨z, List.mem_cons_self _ _, rfl⟩
      · rcases ih (key x :: seen) hz2 with hin | ⟨y, hy, hk⟩
        · rcases List.mem_cons.mp hin with he | hs
          · exact Or.inr ⟨x, List.mem_cons_self _ _, he.symm⟩
          · exact Or.inl hs
        · exact Or.inr ⟨y, List.mem_cons_of_mem _ hy, hk⟩

/-! Claim theorems. -/

/-- C1: the enrichment post-condition "all four derived fields are
non-null on every output row" fails in the code: on a cleaned row whose
`session_duration_minutes` is missing (filled with 0, which falls
outside every left-open `pd.cut` bin) and whose `account_created` fails
to parse, `add_analysis_fields` yields a null `engagement_level` and a
null `cohort_date`. -/
theorem C1_enrichment_null_bug :
    cleanNoSdm.session_duration_minutes = none
    ∧ (add_analysis_fields [cleanNoSdm]).map
        (fun r => (r.engagement_level, r.cohort_date)) = [(none, none)] := by
  exact ⟨rfl, by decide⟩

/-- C2: the cleaning metrics are computed on the already-cleaned frame,
so a batch whose single record is removed for an invalid session
(logout before login) is reported with `invalid_sessions_removed = 0`,
not `≥ 1`: the record is excluded by the validator, yet every removal
counter the pipeline persists is zero. -/
theorem C2_metrics_zero_bug :
    validate_timestamps rBadSession.login_time rBadSession.logout_time = false
    ∧ cleanRows uaC0 [rBadSession] = .ok []
    ∧ prepare_metrics uaC0 [rBadSession] =
        .ok { initial_records := 0, duplicate_emails_removed := 0,
              invalid_sessions_removed := 0, invalid_prices_removed := 0,
              invalid_status_removed := 0 } := by
  exact ⟨rfl, rfl, rfl⟩

/-- C4 counterexample: a session of exactly 30 minutes is enriched with
`engagement_level = Very Low`, not `Low` as the claim states, because
`pd.cut`'s bins are right-closed. -/
theorem C4_boundary_counterexample :
    (add_analysis_fields [clean30]).map (fun r => r.engagement_level)
      = [some "Very Low"]
    ∧ (some "Very Low" : Option String) ≠ some "Low" := by
  exact ⟨by decide, by decide⟩

/-- C4 amended: `engagement_level` buckets `session_duration_minutes`
with left-open, right-closed intervals: `(0,30]` maps to Very Low,
`(30,60]` to Low, `(60,120]` to Medium, `(120,∞)` to High (so exactly
30 maps to Very Low, 60 to Low, 120 to Medium, and a duration of 0 or
below gets a null label); `add_analysis_fields` applies exactly this
bucket map to the 0-filled duration of every row. -/
theorem C4_buckets_amended (d : Rat) :
    (0 < d → d ≤ 30 → cutEngagement d = some "Very Low")
    ∧ (30 < d → d ≤ 60 → cutEngagement d = some "Low")
    ∧ (60 < d → d ≤ 120 → cutEngagement d = some "Medium")
    ∧ (120 < d → cutEngagement d = some "High")
    ∧ (d ≤ 0 → cutEngagement d = none)
    ∧ ∀ xs : List CleanRow,
        (add_analysis_fields xs).map (fun r => r.engagement_level)
          = xs.map (fun r => cutEngagement (r.session_duration_minutes.getD 0)) := by
  refine ⟨?_, ?_, ?_, ?_, ?_, ?_⟩
  · intro h1 h2; unfold cutEngagement; split_ifs with a b <;> first | rfl | linarith
  · intro h1 h2; unfold cutEngagement; split_ifs <;> first | rfl | linarith
  · intro h1 h2; unfold cutEngagement; split_ifs <;> first | rfl | linarith
  · intro h1; unfold cutEngagement; split_ifs <;> first | rfl | linarith
  · intro h1; unfold cutEngagement; split_ifs <;> first | rfl | linarith
  · intro xs
    unfold add_analysis_fields
    rw [List.map_map]
    rfl

/-- C4 witness: a 45-minute session is bucketed as Low, via the amended
bucket theorem at a concrete input. -/
theorem C4_buckets_amended_witness : cutEngagement 45 = some "Low" :=
  (C4_buckets_amended 45).2.1 (by norm_num) (by norm_num)

/-- C3: `add_analysis_fields` assigns every row of identity `u` the
exact per-user price sum (the `groupby(user_id)[price].sum()` aggregate
broadcast onto each of that identity's rows), and the sum is
non-decreasing when a further positively-priced row of that identity is
appended to the batch. -/
theorem C3_clv_sum_monotone (xs : List CleanRow) (u : String) (y : CleanRow)
    (hpos : ∀ r ∈ xs, r.user_id = u → ∃ p, r.price = some p ∧ 0 < p)
    (hyu : y.user_id = u) (hyp : 0 < y.price.getD 0) :
    (∀ r ∈ add_analysis_fields xs, r.user_id = u →
        r.customer_lifetime_value = userPriceSum xs u)
    ∧ userPriceSum xs u ≤ userPriceSum (xs ++ [y]) u := by
  constructor
  · intro r hr hru
    simp only [add_analysis_fields, List.mem_map] at hr
    obtain ⟨x, hx, rfl⟩ := hr
    have hxu : x.user_id = u := hru
    show userPriceSum xs x.user_id = userPriceSum xs u
    rw [hxu]
  · unfold userPriceSum
    rw [List.filter_append, List.map_append, List.sum_append]
    have hy1 : List.filter (fun r => r.user_id == u) [y] = [y] := by
      simp [List.filter_cons, hyu]
    rw [hy1]
    have : ((([y] : List CleanRow)).map (fun r => r.price.getD 0)).sum
        = y.price.getD 0 := by simp
    rw [this]
    linarith

/-- C3 witness: the CLV theorem applied to the concrete batch of two
rows of identity `u1` with prices 100 and 200, with a 300-priced row of
the same identity appended. -/
theorem C3_clv_sum_monotone_witness :
    (∀ r ∈ add_analysis_fields [clean100, clean200], r.user_id = "u1" →
        r.customer_lifetime_value = userPriceSum [clean100, clean200] "u1")
    ∧ userPriceSum [clean100, clean200] "u1"
        ≤ userPriceSum ([clean100, clean200] ++ [clean300]) "u1" := by
  refine C3_clv_sum_monotone [clean100, clean200] "u1" clean300 ?_ rfl (by decide)
  intro r hr _
  rcases List.mem_cons.mp hr with rfl | hr2
  · exact ⟨100, rfl, by norm_num⟩
  · rcases List.mem_cons.mp hr2 with rfl | hr3
    · exact ⟨200, rfl, by norm_num⟩
    · simp at hr3

/-- C5: on a non-empty batch whose prices are all identical, quantile
binning degenerates (`qcut` raises, the handler catches), enrichment
removes no rows, and every row's `price_tier` is the fallback
`Standard`. -/
theorem C5_qcut_fallback (xs : List CleanRow) (c : Rat) (hne : xs ≠ [])
    (hall : ∀ r ∈ xs, r.price = some c) :
    (add_analysis_fields xs).length = xs.length
    ∧ ∀ r ∈ add_analysis_fields xs, r.price_tier = some "Standard" := by
  have hq : qcutEdges (xs.filterMap (fun r => r.price)) = .error () := by
    rw [filterMap_price_const xs c hall]
    exact qcutEdges_replicate xs.length c
      (fun h0 => hne (List.length_eq_zero.mp h0))
  constructor
  · simp [add_analysis_fields]
  · intro r hr
    simp only [add_analysis_fields, List.mem_map] at hr
    obtain ⟨x, hx, rfl⟩ := hr
    show (match qcutEdges (xs.filterMap (fun r => r.price)) with
      | .ok edges => x.price.map (tierOf edges)
      | .error _ => some "Standard") = some "Standard"
    rw [hq]

/-- C5 witness: a concrete two-row identical-price batch keeps both
rows and tiers both as Standard. -/
theorem C5_qcut_fallback_witness :
    (add_analysis_fields [cleanBase, cleanB2]).length = [cleanBase, cleanB2].length
    ∧ ∀ r ∈ add_analysis_fields [cleanBase, cleanB2], r.price_tier = some "Standard" := by
  refine C5_qcut_fallback [cleanBase, cleanB2] 250 (by simp) ?_
  intro r hr
  rcases List.mem_cons.mp hr with rfl | hr2
  · rfl
  · rcases List.mem_cons.mp hr2 with rfl | hr3
    · rfl
    · simp at hr3

/-- C7: keep-first email deduplication leaves the retained email values
pairwise distinct, preserves the input order (the result is a sublist),
retains for every surviving row exactly the first occurrence of its
email, and loses no email value entirely. -/
theorem C7_dedup_keep_first (xs : List TRow) :
    ((dedupBy (fun t => t.email) xs).map (fun t => t.email)).Nodup
    ∧ (dedupBy (fun t => t.email) xs).Sublist xs
    ∧ (∀ t ∈ dedupBy (fun t => t.email) xs,
        xs.find? (fun t2 => t2.email == t.email) = some t)
    ∧ (∀ t ∈ xs, ∃ t2 ∈ dedupBy (fun t => t.email) xs, t2.email = t.email) := by
  refine ⟨dedupByAux_keys_nodup _ [] xs, dedupByAux_sublist _ [] xs,
    fun t ht => (mem_dedupByAux_find? _ [] xs t ht).2, fun t ht => ?_⟩
  rcases dedupByAux_covers (fun t => t.email) [] xs t ht with h | h
  · simp at h
  · exact h

/-- C7 witness: three rows sharing one email deduplicate to exactly the
first row, with the general keep-first theorem instantiated on them. -/
theorem C7_dedup_keep_first_witness :
    dedupBy (fun t => t.email) [tr1, tr2, tr3] = [tr1]
    ∧ ((dedupBy (fun t => t.email) [tr1, tr2, tr3]).map (fun t => t.email)).Nodup
    ∧ (dedupBy (fun t => t.email) [tr1, tr2, tr3]).Sublist [tr1, tr2, tr3] := by
  exact ⟨by decide, (C7_dedup_keep_first [tr1, tr2, tr3]).1,
    (C7_dedup_keep_first [tr1, tr2, tr3]).2.1⟩

/-- C8: the cleaning stage is idempotent on rows: re-running
`process_basic_cleaning` followed by `process_advanced_cleaning` on its
own cleaned output succeeds, removes no further rows (neither the
email deduplication nor any validity filter drops anything), and keeps
the cleaned contract's columns (the result is again a full `CleanRow`
batch with the same email column). -/
theorem C8_cleaning_idempotent (C : String → String × String × String)
    (xs : List RawRow) (ys : List CleanRow)
    (h : cleanRows C xs = .ok ys) :
    ∃ zs, cleanRowsAgain C ys = .ok zs
      ∧ zs.length = ys.length
      ∧ zs.map (fun r => r.email) = ys.map (fun r => r.email) := by
  unfold cleanRows at h
  cases hb : process_basic_cleaning xs with
  | error e =>
    rw [hb] at h
    simp [Except.map] at h
  | ok bs =>
    rw [hb] at h
    have h2 : Except.ok (process_advanced_cleaning C bs)
        = (Except.ok ys : Except Unit (List CleanRow)) := h
    injection h2 with h3
    obtain ⟨ts, hts, hbs⟩ := process_basic_cleaning_eq xs bs hb
    have hbs_nodup : (bs.map (fun b => b.email)).Nodup := by
      rw [hbs, List.map_map]
      have e0 : ((fun b : BasicRow => b.email) ∘ selectBasic)
          = fun t : TRow => t.email := rfl
      rw [e0]
      exact dedupByAux_keys_nodup _ [] _
    have hys_nodup : (ys.map (fun r => r.email)).Nodup := by
      rw [← h3]
      exact List.Nodup.sublist (advanced_emails_sublist C bs) hbs_nodup
    have hbs_strip : ∀ b ∈ bs, ∃ s, b.email = stripStr s := by
      intro b hb2
      rw [hbs] at hb2
      obtain ⟨u, hu, rfl⟩ := List.mem_map.mp hb2
      have hu2 : u ∈ ts.map stripT := (dedupByAux_sublist _ [] _).subset hu
      obtain ⟨t0, _, rfl⟩ := List.mem_map.mp hu2
      exact ⟨t0.email, rfl⟩
    have hfacts : ∀ r ∈ ys,
        validate_timestamps r.login_time r.logout_time = true
        ∧ priceOK r = true
        ∧ valid_statuses.contains r.purchase_status = true
        ∧ stripStr r.email = r.email := by
      intro r hr
      rw [← h3] at hr
      obtain ⟨f1, f2, f3, b, hb2, he⟩ := advanced_mem C bs r hr
      obtain ⟨s, hss⟩ := hbs_strip b hb2
      refine ⟨f1, f2, f3, ?_⟩
      rw [he, hss, stripStr_idem]
    have hmapE : mapExcept mkTid2 ys = .ok (ys.map tidUpdate) := by
      refine mapExcept_ok mkTid2 tidUpdate ys ?_
      intro r hr
      obtain ⟨⟨a, ha⟩, -⟩ := validate_login_logout _ _ (hfacts r hr).1
      unfold mkTid2 mkTransactId tidUpdate
      rw [ha]
      rfl
    have hS2emails : (((ys.map tidUpdate).map strip2).map (fun r => r.email))
        = ys.map (fun r => r.email) := by
      rw [List.map_map, List.map_map]
      refine List.map_congr_left ?_
      intro r hr
      exact (hfacts r hr).2.2.2
    have hdedup : dedupBy (fun r : CleanRow => r.email)
        ((ys.map tidUpdate).map strip2) = (ys.map tidUpdate).map strip2 := by
      refine dedupBy_eq_self _ _ ?_
      rw [hS2emails]
      exact hys_nodup
    have hbasic2 : process_basic_cleaning_again ys
        = .ok (((ys.map tidUpdate).map strip2).map selectBasic2) := by
      unfold process_basic_cleaning_again
      rw [hmapE]
      exact congrArg Except.ok (congrArg (List.map selectBasic2) hdedup)
    have hbv : ∀ b ∈ ((ys.map tidUpdate).map strip2).map selectBasic2,
        validate_timestamps b.login_time b.logout_time = true := by
      intro b hb2
      obtain ⟨u, hu, rfl⟩ := List.mem_map.mp hb2
      obtain ⟨v, hv2, rfl⟩ := List.mem_map.mp hu
      obtain ⟨r, hr, rfl⟩ := List.mem_map.mp hv2
      exact (hfacts r hr).1
    have hbp : ∀ b ∈ ((ys.map tidUpdate).map strip2).map selectBasic2,
        (match b.price with
          | some p => decide (0 < p)
          | none => false) = true := by
      intro b hb2
      obtain ⟨u, hu, rfl⟩ := List.mem_map.mp hb2
      obtain ⟨v, hv2, rfl⟩ := List.mem_map.mp hu
      obtain ⟨r, hr, rfl⟩ := List.mem_map.mp hv2
      exact (hfacts r hr).2.1
    have hbstat : ∀ b ∈ ((ys.map tidUpdate).map strip2).map selectBasic2,
        valid_statuses.contains (lowerStr b.purchase_status) = true := by
      intro b hb2
      obtain ⟨u, hu, rfl⟩ := List.mem_map.mp hb2
      obtain ⟨v, hv2, rfl⟩ := List.mem_map.mp hu
      obtain ⟨r, hr, rfl⟩ := List.mem_map.mp hv2
      have hst := status_fixed r.purchase_status (hfacts r hr).2.2.1
      show valid_statuses.contains (lowerStr (stripStr r.purchase_status)) = true
      rw [hst.1, hst.2]
      exact (hfacts r hr).2.2.1
    have hbs2emails : ((((ys.map tidUpdate).map strip2).map selectBasic2).map
        (fun b => b.email)) = ys.map (fun r => r.email) := by
      rw [List.map_map]
      have e0 : ((fun b : BasicRow => b.email) ∘ selectBasic2)
          = fun r : CleanRow => r.email := rfl
      rw [e0]
      exact hS2emails
    obtain ⟨hlen, hemails⟩ := advanced_keeps_all C
      (((ys.map tidUpdate).map strip2).map selectBasic2) hbv hbp hbstat
    refine ⟨process_advanced_cleaning C
      (((ys.map tidUpdate).map strip2).map selectBasic2), ?_, ?_, ?_⟩
    · unfold cleanRowsAgain
      rw [hbasic2]
      rfl
    · rw [hlen]
      have := congrArg List.length hbs2emails
      simpa using this
    · rw [hemails, hbs2emails]

/-- C8 witness: the idempotence theorem applied to the concrete
one-row batch `rawBase`, whose cleaned form is `cleanBase`. -/
theorem C8_cleaning_idempotent_witness :
    ∃ zs, cleanRowsAgain uaC0 [cleanBase] = .ok zs
      ∧ zs.length = [cleanBase].length
      ∧ zs.map (fun r => r.email) = [cleanBase].map (fun r => r.email) :=
  C8_cleaning_idempotent uaC0 [rawBase] [cleanBase] rfl

/-- C6: `validate_timestamps` is a pure boolean verdict: it returns
`true` exactly when both timestamps parse to non-null values with
`login ≤ logout`, and a malformed timestamp (whose parse raises) makes
it return `false` rather than propagate the exception. -/
theorem C6_validate_timestamps_spec (login logout : TField) :
    (validate_timestamps login logout = true ↔
      ∃ l lo : Int, to_datetime login = .ok (some l)
        ∧ to_datetime logout = .ok (some lo) ∧ l ≤ lo)
    ∧ validate_timestamps .malformed logout = false
    ∧ validate_timestamps login .malformed = false := by
  refine ⟨?_, ?_, ?_⟩
  · cases login <;> cases logout <;>
      simp [validate_timestamps, validateTimestampsE, to_datetime, Except.bind, pure]
  · cases logout <;> rfl
  · cases login <;> rfl

/-- C9 counterexample: no generated price ever leaves the 100–5000
base range; the claimed ×10 / ÷10 heavy-tail transform does not exist
in `generate_data` (the price expression is only a bounded draw plus
two-decimal rounding). -/
theorem C9_no_outlier_counterexample :
    ¬ ∃ x : Rat, (100 ≤ x ∧ x ≤ 5000)
      ∧ (genPrice x < 100 ∨ 5000 < genPrice x) := by
  rintro ⟨x, ⟨h1, h2⟩, h3⟩
  have hb := genPrice_bounds x h1 h2
  rcases h3 with h | h <;> linarith [hb.1, hb.2]

/-- C9 amended: the Record Synthesizer draws `price` from the bounded
range 100–5000 and only rounds it to two decimals; no outlier transform
is applied, so every generated price stays within [100, 5000] (and in
particular is positive). -/
theorem C9_price_bounded (x : Rat) (h1 : 100 ≤ x) (h2 : x ≤ 5000) :
    100 ≤ genPrice x ∧ genPrice x ≤ 5000 ∧ 0 < genPrice x := by
  have hb := genPrice_bounds x h1 h2
  exact ⟨hb.1, hb.2, by linarith [hb.1]⟩

/-- C9 witness: the bound theorem applied at the concrete draw
1234.567. -/
theorem C9_price_bounded_witness :
    100 ≤ genPrice (1234567/1000) ∧ genPrice (1234567/1000) ≤ 5000
    ∧ 0 < genPrice (1234567/1000) :=
  C9_price_bounded (1234567/1000) (by norm_num) (by norm_num)

/-- C10: because email deduplication runs before validity filtering, a
batch whose first record for an email is session-invalid and whose
second record for the same email passes every validity check cleans to
the empty frame: the valid record's email is absent from the output. -/
theorem C10_valid_email_lost :
    cleanRows uaC0 [rBadSession, rawDupValid] = .ok []
    ∧ validate_timestamps rawDupValid.login_time rawDupValid.logout_time = true
    ∧ rawDupValid.price = some 250 ∧ (0 : Rat) < 250
    ∧ valid_statuses.contains (lowerStr rawDupValid.purchase_status) = true
    ∧ rawDupValid.email = rBadSession.email := by
  exact ⟨rfl, rfl, rfl, by norm_num, by decide, rfl⟩

end ProductPipeline
